import Mathlib

/-!
Verification of the regexp-composer pattern builder (`src/RegExpBuilder.ts`).

The TypeScript source is shallowly embedded: the `Pattern` tagged union becomes
an inductive type, the recursive encoder and the optionality analyzer become
Lean functions returning `Except String _` (a thrown `Error` is `.error`),
JavaScript numbers appearing in repeat counts are modelled by `JSNum`
(an integer or `Infinity`; `NaN` never arises from the modelled constructors),
and JavaScript strings are Lean strings (one `Char` per Unicode code point,
matching the source's code-point-wise iteration).
-/

namespace RegExpComposer

/-- A JavaScript number as it appears in `Repeated.minCount` / `Repeated.maxCount`:
an integer or `Infinity`.  (`NaN` and fractional values are not produced by any
modelled constructor and are omitted.) -/
inductive JSNum where
  | int : Int → JSNum
  | inf : JSNum
deriving DecidableEq, Repr

/-- JavaScript `ToInt32`, the meaning of `n | 0`: wrap into `[-2^31, 2^31)`.
`Infinity | 0` is `0`. -/
def toInt32 (n : Int) : Int :=
  let m := n.emod 4294967296
  if m ≥ 2147483648 then m - 4294967296 else m

/-- `x | 0` on a `JSNum` (used by the `repeated` constructors). -/
def orZero : JSNum → Int
  | .int n => toInt32 n
  | .inf => 0

/-- String interpolation of a `JSNum` (template literal `${x}`). -/
def jsNumToString : JSNum → String
  | .int n => toString n
  | .inf => "Infinity"

/-- The argument of `sameAs` / field `SameAs.captureGroupNameOrIndex`:
a capture-group name (string) or index (number; always integral here). -/
inductive SameAsRef where
  | index : Int → SameAsRef
  | gname : String → SameAsRef
deriving DecidableEq, Repr

/-- The `Pattern` union of the source: a string literal, an array of patterns,
or one of the tagged node interfaces.  `specialToken` carries `name` and
`rawRegExp`; `capture` carries the optional `name` (`none` = `undefined`);
`zeroOrMore`/`oneOrMore` carry `greedy` then `content`;
`repeated` carries `minCount`, `maxCount`, `greedy`, `content`. -/
inductive Pattern where
  | str : String → Pattern
  | seq : List Pattern → Pattern
  | specialToken : String → String → Pattern
  | possibly : Pattern → Pattern
  | zeroOrMore : Bool → Pattern → Pattern
  | oneOrMore : Bool → Pattern → Pattern
  | repeated : JSNum → JSNum → Bool → Pattern → Pattern
  | precededBy : Pattern → Pattern
  | notPrecededBy : Pattern → Pattern
  | followedBy : Pattern → Pattern
  | notFollowedBy : Pattern → Pattern
  | anyOf : List Pattern → Pattern
  | notAnyOf : List Pattern → Pattern
  | capture : Option String → Pattern → Pattern
  | sameAs : SameAsRef → Pattern
deriving Repr

/-- The characters escaped by `escapeStringForRegExp`'s regex
`[.*+?^$\x7b\x7d()|[\]\\]`. -/
def regExpMetachars : List Char := ".*+?^$\x7b\x7d()|[]\\".data

/-- `escapeStringForRegExp`: prefix every regex metacharacter with a backslash;
all other code points pass through unchanged. -/
def escapeStringForRegExp (s : String) : String :=
  String.join (s.data.map (fun c =>
    if regExpMetachars.contains c then String.mk ['\\', c] else String.mk [c]))

/-- `isSingleUnicodeCodepoint`: `true` iff the string is exactly one code
point; the source throws on a zero-length string. -/
def isSingleUnicodeCodepoint (s : String) : Except String Bool :=
  if s.length = 0 then .error "Zero-length string"
  else .ok (s.length == 1)

/-- `isClassToken`: the pattern is a `specialToken` object. -/
def isClassToken : Pattern → Bool
  | .specialToken _ _ => true
  | _ => false

/-- `isStringOrClassToken`: a string (of any length) or a `specialToken`. -/
def isStringOrClassToken : Pattern → Bool
  | .str _ => true
  | .specialToken _ _ => true
  | _ => false

/-- `isSingleCharPattern`: a single-code-point string, or a class token.
Propagates the `Zero-length string` error thrown by
`isSingleUnicodeCodepoint` on an empty string literal. -/
def isSingleCharPattern : Pattern → Except String Bool
  | .str s => (isSingleUnicodeCodepoint s).map (fun b => b)
  | .specialToken _ _ => .ok true
  | p => .ok (isClassToken p)

/-- Classify each `anyOf` member with `isSingleCharPattern`, in order
(mirrors the classification calls made by the grouping loop of
`encodePattern_anyOf`; the first unclassifiable member aborts the call). -/
def classifyMembers : List Pattern → Except String (List Bool)
  | [] => .ok []
  | m :: rest => do
      let b ← isSingleCharPattern m
      let bs ← classifyMembers rest
      .ok (b :: bs)

/-- The grouping loop of `encodePattern_anyOf` over already-classified,
already-encoded members (each pair is `(atomic?, encoding)`).
`current` is the last (open) group — `patternGroups[patternGroups.length-1]` —
and `finished` holds the completed groups; the JS loop starts with
`patternGroups = [[]]`, i.e. `current = []`, `finished = []`.
A member joins the open group when it is empty or classified like its first
element, otherwise it starts a new group. -/
def groupLoop : List (Bool × String) → List (Bool × String) →
    List (List (Bool × String)) → List (List (Bool × String))
  | [], current, finished => finished ++ [current]
  | x :: rest, current, finished =>
      match current with
      | [] => groupLoop rest [x] finished
      | c0 :: _ =>
          if x.1 == c0.1 then groupLoop rest (current ++ [x]) finished
          else groupLoop rest [x] (finished ++ [current])

/-- The per-group processing of `encodePattern_anyOf`: empty groups are
skipped; an atomic group becomes (at most) one character class — encodings
filtered for non-emptiness, a bare `-` escaped to `\-`, joined, wrapped in
`[...]`, and skipped entirely when nothing remains; a composite group
contributes its non-empty member encodings as separate branches. -/
def processGroups : List (List (Bool × String)) → List String
  | [] => []
  | g :: rest =>
      let tail := processGroups rest
      match g with
      | [] => tail
      | (atomic, _) :: _ =>
          let encs := g.map (fun q => q.2)
          if atomic then
            let filtered := encs.filter (fun v => v.length > 0)
            let escaped := filtered.map (fun v => if v = "-" then "\\-" else v)
            if escaped.length > 0 then
              ("[" ++ String.join escaped ++ "]") :: tail
            else tail
          else
            (encs.filter (fun v => v.length > 0)) ++ tail

/-- Assembly tail of `encodePattern_anyOf`: group the `(atomic?, encoding)`
pairs with the grouping loop, process the groups into disjunction member
strings, join them with `|` and wrap in `(?:...)`; an empty member-string
list yields the empty string. -/
def assembleAnyOf (pairs : List (Bool × String)) : String :=
  let disjunctionMemberStrings := processGroups (groupLoop pairs [] [])
  if disjunctionMemberStrings.length = 0 then ""
  else "(?:" ++ String.intercalate "|" disjunctionMemberStrings ++ ")"

mutual

/-- `encodePattern(pattern, wrapRangeTokens = true)`.

The `anyOf` case restructures the source loops equivalently: the source first
runs the grouping loop (classifying every member in order; first
classification error aborts), then encodes the members group by group (first
encoding error aborts, members in original order).  Here the members are
classified first (`classifyMembers`), then encoded in order — an atomic
member unwrapped (`wrapRangeTokens = false`), a composite member with default
wrapping, exactly as its group would be encoded, since every member of a
group shares the group head's classification — and the pure grouping/assembly
runs on the resulting pairs (`assembleAnyOf`).  The surfaced error and the
produced string are the same as the source's. -/
def encodePattern (pattern : Pattern) (wrapRangeTokens : Bool := true) :
    Except String String :=
  match pattern with
  | .str s => .ok (escapeStringForRegExp s)
  | .seq elements => do
      let parts ← encodeSequence elements
      .ok (String.join parts)
  | .specialToken nm raw =>
      if wrapRangeTokens && (nm == "charRange" || nm == "codepointRange") then
        .ok ("[" ++ raw ++ "]")
      else
        .ok raw
  | .possibly content => do
      let contentString ← encodePattern content
      if contentString = "" then .ok ""
      else if isStringOrClassToken content then .ok (contentString ++ "?")
      else .ok ("(?:" ++ contentString ++ ")?")
  | .zeroOrMore greedy content => do
      let contentString ← encodePattern content
      if contentString = "" then .ok ""
      else
        let greedySuffix := if greedy then "" else "?"
        if isStringOrClassToken content then
          .ok (contentString ++ "*" ++ greedySuffix)
        else
          .ok ("(?:" ++ contentString ++ ")*" ++ greedySuffix)
  | .oneOrMore greedy content => do
      let contentString ← encodePattern content
      if contentString = "" then .ok ""
      else
        let greedySuffix := if greedy then "" else "?"
        if isStringOrClassToken content then
          .ok (contentString ++ "+" ++ greedySuffix)
        else
          .ok ("(?:" ++ contentString ++ ")+" ++ greedySuffix)
  | .repeated minCount maxCount greedy content => do
      let contentString ← encodePattern content
      if contentString = "" then .ok ""
      else
        let countString :=
          if minCount = maxCount then
            "\x7b" ++ jsNumToString minCount ++ "\x7d"
          else if maxCount = JSNum.inf then
            "\x7b" ++ jsNumToString minCount ++ ",\x7d"
          else
            "\x7b" ++ jsNumToString minCount ++ "," ++ jsNumToString maxCount ++ "\x7d"
        let greedySuffix := if greedy then "" else "?"
        .ok ("(?:" ++ contentString ++ ")" ++ countString ++ greedySuffix)
  | .precededBy content => do
      let contentString ← encodePattern content
      if contentString = "" then .ok "" else .ok ("(?<=" ++ contentString ++ ")")
  | .notPrecededBy content => do
      let contentString ← encodePattern content
      if contentString = "" then .ok "" else .ok ("(?<!" ++ contentString ++ ")")
  | .followedBy content => do
      let contentString ← encodePattern content
      if contentString = "" then .ok "" else .ok ("(?=" ++ contentString ++ ")")
  | .notFollowedBy content => do
      let contentString ← encodePattern content
      if contentString = "" then .ok "" else .ok ("(?!" ++ contentString ++ ")")
  | .capture name content => do
      let contentString ← encodePattern content
      match name with
      | some nm =>
          if nm = "" then .ok ("(" ++ contentString ++ ")")
          else .ok ("(?<" ++ nm ++ ">" ++ contentString ++ ")")
      | none => .ok ("(" ++ contentString ++ ")")
  | .sameAs ref =>
      match ref with
      | .gname nm => .ok ("\\k<" ++ nm ++ ">")
      | .index n => .ok ("(?:\\" ++ toString n ++ ")")
  | .anyOf members =>
      if members.length = 0 then .ok ""
      else do
        let flags ← classifyMembers members
        let encodedPairs ← encodeAnyOfMembers members flags
        .ok (assembleAnyOf encodedPairs)
  | .notAnyOf members =>
      if members.length = 0 then .ok ""
      else do
        let encodedElements ← encodeNotAnyOfMembers members
        .ok ("[^" ++ String.join encodedElements ++ "]")

/-- Encode the elements of an array pattern in order (`pattern.map(element =>
encodePattern(element))`). -/
def encodeSequence : List Pattern → Except String (List String)
  | [] => .ok []
  | p :: rest => do
      let s ← encodePattern p
      let ss ← encodeSequence rest
      .ok (s :: ss)

/-- Encode `anyOf` members in order, pairing each with its (precomputed)
classification; atomic members are encoded unwrapped
(`encodePattern(member, false)`), composite members with default wrapping.
`flags` is always the output of `classifyMembers` on the same list. -/
def encodeAnyOfMembers : List Pattern → List Bool →
    Except String (List (Bool × String))
  | [], _ => .ok []
  | m :: rest, flags =>
      let atomic := match flags.head? with | some f => f | none => false
      do
        let s ← encodePattern m (not atomic)
        let ss ← encodeAnyOfMembers rest flags.tail
        .ok ((atomic, s) :: ss)

/-- The member loop of `encodePattern_notAnyOf`: every member must be a
string or class token, and a string member must be a single code point
(`isSingleUnicodeCodepoint` throwing on the empty string); valid members are
encoded unwrapped. -/
def encodeNotAnyOfMembers : List Pattern → Except String (List String)
  | [] => .ok []
  | m :: rest =>
      if isStringOrClassToken m then
        match m with
        | .str s => do
            let single ← isSingleUnicodeCodepoint s
            if single then do
              let enc ← encodePattern (.str s) false
              let rest' ← encodeNotAnyOfMembers rest
              .ok (enc :: rest')
            else
              .error ("The string pattern " ++ s ++ " is not a single codepoint and cannot be included in a negated character class.")
        | p => do
            let enc ← encodePattern p false
            let rest' ← encodeNotAnyOfMembers rest
            .ok (enc :: rest')
      else
        .error "The pattern is not a single codepoint or class token and cannot be included in a negated character class."

end

/-! ### AST building functions (validated constructors) -/

/-- `repeated(count, pattern)` — the single-count overload: `minCount` and
`maxCount` are both `count | 0`. -/
def repeatedCount (count : JSNum) (pattern : Pattern) : Pattern :=
  .repeated (.int (orZero count)) (.int (orZero count)) true pattern

/-- `repeated(range, pattern)` — the range overload: the range must be
`[min]` or `[min, max]` (length 1 or 2); a missing `max` defaults to
`Infinity` (`range[1] ?? Infinity`); both counts then pass through `|= 0`
(which turns `Infinity` into `0`). -/
def repeatedRange (range : List JSNum) (pattern : Pattern) :
    Except String Pattern :=
  if range.length = 0 ∨ range.length > 2 then
    .error "Range should either be [min] or [min, max]"
  else
    let minCount := match range.head? with | some v => v | none => JSNum.inf
    let maxCount := match range.get? 1 with | some v => v | none => JSNum.inf
    .ok (.repeated (.int (orZero minCount)) (.int (orZero maxCount)) true pattern)

/-- `repeatedNonGreedy(pattern, range)`: same range validation and `|= 0`
truncation as `repeated`'s range overload, with `greedy: false`. -/
def repeatedNonGreedy (pattern : Pattern) (range : List JSNum) :
    Except String Pattern :=
  if range.length = 0 ∨ range.length > 2 then
    .error "Range should either be [min] or [min, max]"
  else
    let minCount := match range.head? with | some v => v | none => JSNum.inf
    let maxCount := match range.get? 1 with | some v => v | none => JSNum.inf
    .ok (.repeated (.int (orZero minCount)) (.int (orZero maxCount)) false pattern)

/-- Is `c` one of `0-9`, `a-f`, `A-F` (the class `[0-9a-fA-F]`)? -/
def isHexDigitChar (c : Char) : Bool :=
  ("0".data.head!.val ≤ c.val && c.val ≤ "9".data.head!.val) ||
  ("a".data.head!.val ≤ c.val && c.val ≤ "f".data.head!.val) ||
  ("A".data.head!.val ≤ c.val && c.val ≤ "F".data.head!.val)

/-- Hex value of a digit character. -/
def hexVal (c : Char) : Nat :=
  if c.val ≤ "9".data.head!.val then c.val.toNat - 48
  else if c.val ≥ "a".data.head!.val then c.val.toNat - 87
  else c.val.toNat - 55

/-- The source's hex-shape test `/^[0-9a-fA-F]{1, 6}$/` contains a space, so
in JavaScript `{1, 6}` is not a quantifier but the literal text `{1, 6}`:
the regex matches exactly a string made of one `[0-9a-fA-F]` character
followed by the seven characters `{1, 6}`. -/
def matchesBrokenHexRegex (s : String) : Bool :=
  match s.data with
  | c :: rest => isHexDigitChar c && rest == "\x7b1, 6\x7d".data
  | [] => false

/-- JavaScript `parseInt(s, 16)` for inputs without leading whitespace or
sign: an optional `0x`/`0X` prefix, then the longest prefix of hex digits,
`NaN` (here `none`) when that prefix is empty. -/
def parseInt16 (s : String) : Option Nat :=
  let ds :=
    match s.data with
    | '0' :: x :: rest => if x == 'x' || x == 'X' then rest else s.data
    | l => l
  let digs := ds.takeWhile isHexDigitChar
  if digs.isEmpty then none
  else some (digs.foldl (fun acc c => acc * 16 + hexVal c) 0)

/-- `assertValidNumericCodepoint`: throws on `NaN` (`none`) and on values
outside `[0, 1114111]` (negative values cannot arise on this path). -/
def assertValidNumericCodepoint (n : Option Nat) : Except String Unit :=
  match n with
  | none => .error "Codepoint is to NaN"
  | some v =>
      if v > 1114111 then
        .error "Codepoint is outside the accepted range of 0 to 1,114,111 (inclusive)"
      else .ok ()

/-- ASCII lowercasing of a string (JavaScript `toLowerCase` restricted to the
ASCII range, which is all the hex-digit test distinguishes). -/
def toLowerCaseStr (s : String) : String := String.mk (s.data.map Char.toLower)

/-- `codepoint(unicodeCodepointHex)` — the hex-string overload: lowercase the
argument, throw if the (broken) shape regex *matches*, then validate
`parseInt(arg, 16)` as a numeric codepoint and build the
`\u{...}` special token from the lowercased string. -/
def codepointFromHex (s : String) : Except String Pattern := do
  let lowered := toLowerCaseStr s
  if matchesBrokenHexRegex lowered then
    .error ("Codepoint '" ++ lowered ++ "' is invalid. It can only include between 1 and 6 hexedecimal digits.")
  else do
    assertValidNumericCodepoint (parseInt16 lowered)
    .ok (.specialToken "codepoint" ("\\u\x7b" ++ lowered ++ "\x7d"))

/-- `sameAs(captureGroupNameOrIndex)`: an empty name or an index outside
`[1, 99]` is rejected (the source also rejects fractional indices, which the
integer model cannot represent). -/
def sameAsCtor (ref : SameAsRef) : Except String Pattern :=
  match ref with
  | .gname s =>
      if s.length = 0 then .error "'sameAs' capture group name cannot be empty"
      else .ok (.sameAs (.gname s))
  | .index n =>
      if n < 1 ∨ n > 99 then
        .error "'sameAs' capture group index can only be between 1 and 99"
      else .ok (.sameAs (.index n))

/-! ### Match patterns (`matches`) -/

/-- The `MatchesConditions` interface: eight independently optional slots. -/
structure MatchesConditions where
  except : Option Pattern := none
  ifFollowedBy : Option Pattern := none
  ifNotFollowedBy : Option Pattern := none
  ifPrecededBy : Option Pattern := none
  ifNotPrecededBy : Option Pattern := none
  ifExtendsTo : Option Pattern := none
  ifExtendsBackTo : Option Pattern := none
  ifNotExtendsBackTo : Option Pattern := none

/-- JavaScript truthiness of a present `Pattern` value: every object and
array is truthy; a string is truthy iff non-empty. -/
def isTruthyPattern : Pattern → Bool
  | .str s => s ≠ ""
  | _ => true

/-- `if (slot) { bucket.push(f(slot)) }`: append `f slot` when the slot is
present and truthy. -/
def pushIfTruthy (slot : Option Pattern) (f : Pattern → Pattern)
    (bucket : List Pattern) : List Pattern :=
  match slot with
  | some p => if isTruthyPattern p then bucket ++ [f p] else bucket
  | none => bucket

/-- The body of `matches`' loop over one condition map, in source order:
`except` → `notFollowedBy` before; `ifFollowedBy` → `followedBy` after;
`ifNotFollowedBy` → `notFollowedBy` after; `ifPrecededBy` → `precededBy`
before; `ifNotPrecededBy` → `notPrecededBy` before; `ifExtendsTo` →
`followedBy` before; `ifExtendsBackTo` → `precededBy` after;
`ifNotExtendsBackTo` → `notPrecededBy` after. -/
def processConditions (acc : List Pattern × List Pattern)
    (conditions : MatchesConditions) : List Pattern × List Pattern :=
  let before := acc.1
  let after := acc.2
  let before := pushIfTruthy conditions.except .notFollowedBy before
  let after := pushIfTruthy conditions.ifFollowedBy .followedBy after
  let after := pushIfTruthy conditions.ifNotFollowedBy .notFollowedBy after
  let before := pushIfTruthy conditions.ifPrecededBy .precededBy before
  let before := pushIfTruthy conditions.ifNotPrecededBy .notPrecededBy before
  let before := pushIfTruthy conditions.ifExtendsTo .followedBy before
  let after := pushIfTruthy conditions.ifExtendsBackTo .precededBy after
  let after := pushIfTruthy conditions.ifNotExtendsBackTo .notPrecededBy after
  (before, after)

/-- `matches(pattern, conditionsArray)` (named `matchesFn` because `matches`
is reserved in Lean): accumulate the before/after assertion buckets over all
condition maps, then return `[...beforePattern, pattern, ...afterPattern]`. -/
def matchesFn (pattern : Pattern) (conditionsArray : List MatchesConditions) :
    List Pattern :=
  let ba := conditionsArray.foldl processConditions ([], [])
  ba.1 ++ [pattern] ++ ba.2

/-! ### Optionality analyzer (`isPatternOptional`) -/

/-- The two lookup tables built during one `isPatternOptional` call:
`captureGroupLookup` is the push-ordered array of capture optionality flags,
`namedCaptureGroupLookup` models the `Map<string, boolean>` as an insertion-
ordered association list. -/
structure AnalyzerState where
  captureGroupLookup : List Bool
  namedCaptureGroupLookup : List (String × Bool)
deriving DecidableEq, Repr

/-- `Map.set`: overwrite an existing key in place, otherwise append. -/
def mapSet (m : List (String × Bool)) (k : String) (v : Bool) :
    List (String × Bool) :=
  if m.any (fun kv => kv.1 == k) then
    m.map (fun kv => if kv.1 == k then (k, v) else kv)
  else m ++ [(k, v)]

/-- `Map.get`: the value stored at `k`, if any. -/
def mapGet (m : List (String × Bool)) (k : String) : Option Bool :=
  (m.find? (fun kv => kv.1 == k)).map (fun kv => kv.2)

mutual

/-- The inner `isOptional` of `isPatternOptional`, with the two lookup
tables threaded explicitly instead of captured mutably. -/
def isOptional : Pattern → AnalyzerState → Except String (Bool × AnalyzerState)
  | .str _, st => .ok (false, st)
  | .seq elements, st => isOptionalAll elements st
  | .specialToken _ _, st => .ok (false, st)
  | .notAnyOf _, st => .ok (false, st)
  | .possibly _, st => .ok (true, st)
  | .zeroOrMore _ _, st => .ok (true, st)
  | .oneOrMore _ content, st => isOptional content st
  | .repeated _ _ _ content, st => isOptional content st
  | .precededBy content, st => isOptional content st
  | .notPrecededBy content, st => isOptional content st
  | .followedBy content, st => isOptional content st
  | .notFollowedBy content, st => isOptional content st
  | .capture name content, st => do
      let r ← isOptional content st
      let isGroupOptional := r.1
      let st1 := r.2
      let st2 := { st1 with
        captureGroupLookup := st1.captureGroupLookup ++ [isGroupOptional] }
      let st3 :=
        match name with
        | some nm =>
            if nm = "" then st2
            else { st2 with
              namedCaptureGroupLookup :=
                mapSet st2.namedCaptureGroupLookup nm isGroupOptional }
        | none => st2
      .ok (isGroupOptional, st3)
  | .anyOf members, st => isOptionalAll members st
  | .sameAs ref, st =>
      match ref with
      | .index n =>
          -- `captureGroupLookup[nameOrIndex]`: plain 0-based array indexing
          -- of the 1-based reference; out of range gives `undefined`.
          if n < 0 then
            .error ("Couldn't resolve backreference to a capture group at index " ++ toString n)
          else
            match st.captureGroupLookup.get? n.toNat with
            | some lookupResult => .ok (lookupResult, st)
            | none =>
                .error ("Couldn't resolve backreference to a capture group at index " ++ toString n)
      | .gname nm =>
          match mapGet st.namedCaptureGroupLookup nm with
          | some lookupResult => .ok (lookupResult, st)
          | none =>
              .error ("Couldn't resolve backreference to a named capture group called '" ++ nm ++ "'")

/-- The element loop shared by the array and `anyOf` cases of `isOptional`:
return `false` at the first non-optional element (later elements are not
traversed), `true` when every element is optional. -/
def isOptionalAll : List Pattern → AnalyzerState →
    Except String (Bool × AnalyzerState)
  | [], st => .ok (true, st)
  | p :: rest, st => do
      let r ← isOptional p st
      if r.1 then isOptionalAll rest r.2 else .ok (false, r.2)

end

/-- `isPatternOptional(pattern)`: run `isOptional` with fresh lookup tables. -/
def isPatternOptional (pattern : Pattern) : Except String Bool :=
  (isOptional pattern ⟨[], []⟩).map (fun r => r.1)

/-! ### Spec-side descriptions

These definitions follow the wording of the specification (not the source),
to be compared with the source-derived definitions above. -/

/-- Whether an `Except` computation succeeded. -/
def exceptIsOk : Except String Pattern → Bool
  | .ok _ => true
  | .error _ => false

/-- Spec wording (grouping optimizer): partition a classified, encoded member
list into *maximal runs* of consecutive members with the same
classification. -/
def specRuns : List (Bool × String) → List (List (Bool × String))
  | [] => []
  | p :: rest =>
      (p :: rest.takeWhile (fun q => q.1 == p.1)) ::
        specRuns (rest.dropWhile (fun q => q.1 == p.1))
termination_by l => l.length
decreasing_by
  simp only [List.length_cons]
  exact Nat.lt_succ_of_le (List.dropWhile_sublist _).length_le

/-- Spec wording, per run: an atomic run — replace any member encoding that
is a bare `-` by `\-`, drop members encoding to the empty string, join the
fragments and wrap once in `[...]` (a run with no fragments left contributes
nothing); a composite run — keep the non-empty member encodings as separate
alternation branches. -/
def specRunOutput (run : List (Bool × String)) : List String :=
  match run with
  | [] => []
  | (atomic, _) :: _ =>
      if atomic then
        let fragments :=
          ((run.map (fun q => q.2)).map (fun v => if v = "-" then "\\-" else v)).filter
            (fun v => v ≠ "")
        if fragments.isEmpty then [] else ["[" ++ String.join fragments ++ "]"]
      else
        (run.map (fun q => q.2)).filter (fun v => v ≠ "")

/-- Spec wording (grouping optimizer, whole algorithm): classify every member
as atomic or composite, encode each member (unwrapped when atomic), partition
into maximal runs, produce each run's output, concatenate all run outputs in
original left-to-right order with `|` and wrap the whole thing in `(?:...)`;
zero members, or all members encoding empty, yields the empty string. -/
def specAnyOfEncode (members : List Pattern) : Except String String :=
  if members.length = 0 then .ok ""
  else do
    let flags ← classifyMembers members
    let encodedPairs ← encodeAnyOfMembers members flags
    let runOutputs := (specRuns encodedPairs).flatMap specRunOutput
    if runOutputs.isEmpty then .ok ""
    else .ok ("(?:" ++ String.intercalate "|" runOutputs ++ ")")

/-- Spec wording (condition composer): the before-assertions selected from
one condition map, in the fixed order `except` (negative lookahead),
`ifPrecededBy` (positive lookbehind), `ifNotPrecededBy` (negative
lookbehind), `ifExtendsTo` (positive lookahead). -/
def beforeAssertionsOf (c : MatchesConditions) : List Pattern :=
  pushIfTruthy c.except .notFollowedBy [] ++
  pushIfTruthy c.ifPrecededBy .precededBy [] ++
  pushIfTruthy c.ifNotPrecededBy .notPrecededBy [] ++
  pushIfTruthy c.ifExtendsTo .followedBy []

/-- Spec wording (condition composer): the after-assertions selected from one
condition map, in the fixed order `ifFollowedBy` (positive lookahead),
`ifNotFollowedBy` (negative lookahead), `ifExtendsBackTo` (positive
lookbehind), `ifNotExtendsBackTo` (negative lookbehind). -/
def afterAssertionsOf (c : MatchesConditions) : List Pattern :=
  pushIfTruthy c.ifFollowedBy .followedBy [] ++
  pushIfTruthy c.ifNotFollowedBy .notFollowedBy [] ++
  pushIfTruthy c.ifExtendsBackTo .precededBy [] ++
  pushIfTruthy c.ifNotExtendsBackTo .notPrecededBy []

/-! ### Lemmas -/

theorem string_length_pos (s : String) : (0 < s.length) ↔ s ≠ "" := by
  cases s with
  | mk data =>
      cases data <;> simp [String.length, String.ext_iff]

/-- Unfolding equation of `specRuns` on the empty list. -/
theorem specRuns_nil : specRuns [] = [] := by
  rw [specRuns.eq_def]

/-- Unfolding equation of `specRuns` on a non-empty list. -/
theorem specRuns_cons (p : Bool × String) (rest : List (Bool × String)) :
    specRuns (p :: rest) =
      (p :: rest.takeWhile (fun q => q.1 == p.1)) ::
        specRuns (rest.dropWhile (fun q => q.1 == p.1)) := by
  rw [specRuns.eq_def]

/-- The grouping loop, run with a non-empty open group whose members all
share the head's classification, appends to `finished` exactly the maximal
runs of the remaining input (the first run merging into the open group). -/
theorem groupLoop_spec (l : List (Bool × String)) :
    ∀ (c0 : Bool × String) (ctail : List (Bool × String))
      (finished : List (List (Bool × String))),
      (∀ q ∈ ctail, q.1 = c0.1) →
      groupLoop l (c0 :: ctail) finished =
        finished ++
          ((c0 :: ctail) ++ l.takeWhile (fun q => q.1 == c0.1)) ::
            specRuns (l.dropWhile (fun q => q.1 == c0.1)) := by
  induction l with
  | nil =>
      intro c0 ctail finished _
      simp [groupLoop, specRuns]
  | cons x rest ih =>
      intro c0 ctail finished h
      by_cases hx : x.1 = c0.1
      · have hb : (x.1 == c0.1) = true := by simp [hx]
        have hcur : (c0 :: ctail) ++ [x] = c0 :: (ctail ++ [x]) := by simp
        have hmem : ∀ q ∈ ctail ++ [x], q.1 = c0.1 := by
          intro q hq
          rcases List.mem_append.mp hq with hq | hq
          · exact h q hq
          · simp at hq; subst hq; exact hx
        have := ih c0 (ctail ++ [x]) finished hmem
        simp only [groupLoop, hb, if_true, hcur]
        rw [this]
        simp [List.takeWhile_cons, List.dropWhile_cons, hb]
      · have hb : (x.1 == c0.1) = false := by simp [hx]
        have := ih x [] (finished ++ [c0 :: ctail]) (by intro q hq; simp at hq)
        simp only [groupLoop, hb, Bool.false_eq_true, if_false]
        rw [this]
        simp only [List.takeWhile_cons, List.dropWhile_cons, hb,
          Bool.false_eq_true, if_false]
        rw [specRuns_cons]
        simp

/-- Filtering strings by positive length is filtering by non-emptiness. -/
theorem filter_length_pos_eq_filter_ne_empty (l : List String) :
    l.filter (fun v => v.length > 0) = l.filter (fun v => v ≠ "") := by
  apply List.filter_congr
  intro a _
  simp only [decide_eq_decide]
  exact string_length_pos a

/-- A member's encoding survives the non-emptiness filter exactly when its
dash-escaped form does: filtering before dash-escaping (source order) equals
dash-escaping before filtering (spec order). -/
theorem dash_escape_filter (encs : List String) :
    (encs.filter (fun v => v.length > 0)).map
        (fun v => if v = "-" then "\\-" else v) =
      (encs.map (fun v => if v = "-" then "\\-" else v)).filter
        (fun v => v ≠ "") := by
  induction encs with
  | nil => rfl
  | cons v rest ih =>
      simp only [List.filter_cons, List.map_cons]
      by_cases hd : v = "-"
      · subst hd
        have h1 : (decide (("-" : String).length > 0)) = true := by decide
        have h2 : (decide (("\\-" : String) ≠ "")) = true := by decide
        simp [h1, h2, ih]
      · by_cases hz : v = ""
        · subst hz
          have h1 : (decide (("" : String).length > 0)) = false := by decide
          have h2 : (decide (("" : String) ≠ "")) = false := by decide
          simp [h1, h2, ih]
        · have hlen : (decide (v.length > 0)) = true := by
            simpa using (string_length_pos v).mpr hz
          have hne : (decide (v ≠ "")) = true := by simpa using hz
          simp [hd, hlen, hne, ih]

/-- The branch shape shared by the atomic-run outputs: prepend the class
string when any fragment remains, else contribute nothing. -/
theorem class_output_if (fr : List String) (tail : List String) :
    (if fr.length > 0 then ("[" ++ String.join fr ++ "]") :: tail else tail) =
      (if fr.isEmpty then [] else ["[" ++ String.join fr ++ "]"]) ++ tail := by
  cases fr <;> simp

/-- Per-group processing agrees with the spec's per-run output, over any
group list. -/
theorem processGroups_eq_flatMap (gs : List (List (Bool × String))) :
    processGroups gs = gs.flatMap specRunOutput := by
  induction gs with
  | nil => rfl
  | cons g rest ih =>
      rcases g with _ | ⟨⟨atomic, s⟩, gtail⟩
      · simp [processGroups, specRunOutput, ih]
      · cases atomic
        · simp only [processGroups, specRunOutput, List.flatMap_cons, ih,
            filter_length_pos_eq_filter_ne_empty, Bool.false_eq_true, if_false]
        · simp only [processGroups, specRunOutput, List.flatMap_cons, if_true]
          rw [dash_escape_filter, class_output_if, ih]

/-- The whole assembly tail of `encodePattern_anyOf` matches the spec's
run-output description. -/
theorem assembleAnyOf_spec (pairs : List (Bool × String)) :
    assembleAnyOf pairs =
      (if ((specRuns pairs).flatMap specRunOutput).isEmpty then ""
       else "(?:" ++
         String.intercalate "|" ((specRuns pairs).flatMap specRunOutput) ++ ")") := by
  cases pairs with
  | nil => simp [assembleAnyOf, groupLoop, processGroups, specRuns_nil]
  | cons p rest =>
      unfold assembleAnyOf
      have h0 : groupLoop (p :: rest) [] [] = groupLoop rest [p] [] := by
        simp [groupLoop]
      have h1 : groupLoop (p :: rest) [] [] = specRuns (p :: rest) := by
        rw [h0, groupLoop_spec rest p [] [] (by intro q hq; simp at hq),
          specRuns_cons]
        simp
      rw [h1, processGroups_eq_flatMap]
      generalize (specRuns (p :: rest)).flatMap specRunOutput = outs
      cases outs <;> simp

/-- `pushIfTruthy` appends its contribution after the existing bucket. -/
theorem pushIfTruthy_eq (slot : Option Pattern) (f : Pattern → Pattern)
    (bucket : List Pattern) :
    pushIfTruthy slot f bucket = bucket ++ pushIfTruthy slot f [] := by
  cases slot with
  | none => simp [pushIfTruthy]
  | some p => by_cases h : isTruthyPattern p <;> simp [pushIfTruthy, h]

/-- One step of `matches`' loop appends exactly the map's selected
before/after assertions, in the fixed slot orders. -/
theorem processConditions_eq (b a : List Pattern) (c : MatchesConditions) :
    processConditions (b, a) c =
      (b ++ beforeAssertionsOf c, a ++ afterAssertionsOf c) := by
  simp only [processConditions, beforeAssertionsOf, afterAssertionsOf]
  rw [pushIfTruthy_eq c.except, pushIfTruthy_eq c.ifFollowedBy,
    pushIfTruthy_eq c.ifNotFollowedBy, pushIfTruthy_eq c.ifPrecededBy,
    pushIfTruthy_eq c.ifNotPrecededBy, pushIfTruthy_eq c.ifExtendsTo,
    pushIfTruthy_eq c.ifExtendsBackTo, pushIfTruthy_eq c.ifNotExtendsBackTo]
  simp [List.append_assoc]

/-- `matches`' fold accumulates every condition map's assertions in array
order onto the two buckets. -/
theorem foldl_processConditions (cs : List MatchesConditions) :
    ∀ b a : List Pattern,
      cs.foldl processConditions (b, a) =
        (b ++ cs.flatMap beforeAssertionsOf,
         a ++ cs.flatMap afterAssertionsOf) := by
  induction cs with
  | nil => intro b a; simp
  | cons c rest ih =>
      intro b a
      simp only [List.foldl_cons, processConditions_eq, List.flatMap_cons]
      rw [ih]
      simp [List.append_assoc]

/-- `repeatedRange` succeeds exactly when the range has length 1 or 2
(shape-only validation; the counts themselves are never checked). -/
theorem repeatedRange_isOk (range : List JSNum) (content : Pattern) :
    exceptIsOk (repeatedRange range content) =
      (range.length == 1 || range.length == 2) := by
  rcases range with _ | ⟨a, _ | ⟨b, _ | ⟨c', t⟩⟩⟩
  · rfl
  · rfl
  · rfl
  · have hc : ((a :: b :: c' :: t).length = 0 ∨ (a :: b :: c' :: t).length > 2) := by
      simp only [List.length_cons]; omega
    unfold repeatedRange
    rw [if_pos hc]
    show false = _
    symm
    simp only [List.length_cons, Bool.or_eq_false_iff, beq_eq_false_iff_ne]
    omega

/-- `repeatedNonGreedy` succeeds exactly when the range has length 1 or 2
(shape-only validation; the counts themselves are never checked). -/
theorem repeatedNonGreedy_isOk (range : List JSNum) (content : Pattern) :
    exceptIsOk (repeatedNonGreedy content range) =
      (range.length == 1 || range.length == 2) := by
  rcases range with _ | ⟨a, _ | ⟨b, _ | ⟨c', t⟩⟩⟩
  · rfl
  · rfl
  · rfl
  · have hc : ((a :: b :: c' :: t).length = 0 ∨ (a :: b :: c' :: t).length > 2) := by
      simp only [List.length_cons]; omega
    unfold repeatedNonGreedy
    rw [if_pos hc]
    show false = _
    symm
    simp only [List.length_cons, Bool.or_eq_false_iff, beq_eq_false_iff_ne]
    omega

/-! ### Claims -/

/-- C1 (code_bug evidence): the numeric branch of `sameAs` resolution in
`isPatternOptional` indexes the push-ordered (0-based) capture table directly
with the 1-based reference.  With exactly one capture recorded — built from
`possibly(...)`, hence flagged optional — `sameAs(1)` throws a resolution
error instead of returning `true` as the claim states; the name branch works;
and with two captures recorded, `sameAs(1)` resolves (to the second flag)
instead of the first capture's. -/
theorem c1_sameAs_numeric_resolution_eval :
    isPatternOptional
        (.seq [.capture none (.possibly (.str "a")), .sameAs (.index 1)])
      = .error "Couldn't resolve backreference to a capture group at index 1"
    ∧ isPatternOptional
        (.seq [.capture (some "x") (.possibly (.str "a")), .sameAs (.gname "x")])
      = .ok true
    ∧ isPatternOptional
        (.seq [.capture none (.possibly (.str "a")),
               .capture none (.zeroOrMore true (.str "b")),
               .sameAs (.index 1)])
      = .ok true := by
  refine ⟨by rfl, by rfl, by rfl⟩

/-- C2 (code_bug evidence): the quantifier encoders test
`isStringOrClassToken`, which accepts *any* string, so a multi-character
string literal content gets the quantifier suffix appended directly
(`possibly('cat')` → `cat?`, making only the final code point optional)
instead of being wrapped in a non-capturing group as the claim (and the
project README) require; single-code-point strings and non-string composite
content behave as claimed. -/
theorem c2_quantifier_wrapping_eval :
    encodePattern (.possibly (.str "cat")) true = .ok "cat?"
    ∧ encodePattern (.zeroOrMore true (.str "cat")) true = .ok "cat*"
    ∧ encodePattern (.oneOrMore true (.str "cat")) true = .ok "cat+"
    ∧ encodePattern (.possibly (.str "a")) true = .ok "a?"
    ∧ encodePattern (.possibly (.seq [.str "c", .str "at"])) true = .ok "(?:cat)?"
    ∧ encodePattern (.zeroOrMore false (.anyOf [.str "a", .str "b"])) true
        = .ok "(?:(?:[ab]))*?" := by
  refine ⟨by rfl, by rfl, by rfl, by rfl, by rfl, by rfl⟩

/-- C3 (code_bug evidence): `repeated([min], content)` sets
`maxCount = Infinity` but then truncates it with `|= 0`, so the stored
maximum is `0` and the encoder emits the invalid suffix `{min,0}` instead of
`{min,}`; the encoder's `Infinity` branch itself is correct (a hand-built
node with an `Infinity` maximum encodes to `{min,}`), and the `{n}` /
`{min,max}` / non-greedy cases behave as claimed. -/
theorem c3_unbounded_repeat_eval :
    repeatedRange [JSNum.int 2] (.str "a")
      = .ok (.repeated (.int 2) (.int 0) true (.str "a"))
    ∧ encodePattern (.repeated (.int 2) (.int 0) true (.str "a")) true
        = .ok "(?:a)\x7b2,0\x7d"
    ∧ encodePattern (.repeated (.int 2) JSNum.inf true (.str "a")) true
        = .ok "(?:a)\x7b2,\x7d"
    ∧ encodePattern (.repeated (.int 3) (.int 3) true (.str "a")) true
        = .ok "(?:a)\x7b3\x7d"
    ∧ encodePattern (.repeated (.int 2) (.int 5) false (.str "a")) true
        = .ok "(?:a)\x7b2,5\x7d?" := by
  refine ⟨by rfl, by rfl, by rfl, by rfl, by rfl⟩

/-- C4 (code_bug evidence): the hex-shape test of `codepoint` is broken
twice — its regex `{1, 6}` contains a space (so it is the literal text
`{1, 6}`, not a quantifier) and the test is inverted (`if (test) throw`) —
so a string that is not 1–6 hex digits but has a parseable hex prefix, such
as `'5z'`, is *not* rejected and an invalid token `\u{5z}` is constructed;
only `NaN` and out-of-range values are caught. -/
theorem c4_codepoint_hex_validation_eval :
    codepointFromHex "5z" = .ok (.specialToken "codepoint" "\\u\x7b5z\x7d")
    ∧ codepointFromHex "1F600" = .ok (.specialToken "codepoint" "\\u\x7b1f600\x7d")
    ∧ codepointFromHex "110000"
        = .error "Codepoint is outside the accepted range of 0 to 1,114,111 (inclusive)"
    ∧ codepointFromHex "zz" = .error "Codepoint is to NaN" := by
  refine ⟨by rfl, by rfl, by rfl, by rfl⟩

/-- C5 counterexample: an empty string literal member *encodes to the empty
string*, yet `encodePattern` of the `anyOf` node containing it throws
(`isSingleCharPattern` cannot classify a zero-length string) instead of
yielding the empty string as the claim's final clause states. -/
theorem c5_empty_literal_member_counterexample :
    escapeStringForRegExp "" = ""
    ∧ encodePattern (.anyOf [.str ""]) true = .error "Zero-length string"
    ∧ (Except.error "Zero-length string" : Except String String) ≠ .ok "" := by
  refine ⟨by rfl, by rfl, ?_⟩
  intro hcon
  exact Except.noConfusion hcon

/-- C5 (amended): `encodePattern` of an `AnyOf` node equals the spec's
description — classify members as atomic/composite, partition into maximal
runs, turn each atomic run into one character class (bare `-` escaped,
empty encodings dropped, nothing emitted when no fragment remains), keep
composite runs' non-empty encodings as separate branches, join all run
outputs with `|` in original order and wrap once in `(?:...)` — with zero
members, or all members encoding empty, yielding the empty string; *except*
that a zero-length string literal member raises a `Zero-length string`
classification error. -/
theorem c5_anyOf_grouping_amended :
    (∀ members : List Pattern,
        encodePattern (.anyOf members) true = specAnyOfEncode members)
    ∧ encodePattern (.anyOf [.str "a", .str "b", .str "cat", .str "d"]) true
        = .ok "(?:[ab]|cat|[d])"
    ∧ encodePattern (.anyOf []) true = .ok ""
    ∧ encodePattern (.anyOf [.possibly (.str ""), .seq []]) true = .ok ""
    ∧ encodePattern (.anyOf [.str ""]) true = .error "Zero-length string" := by
  refine ⟨?_, by rfl, by rfl, by rfl, by rfl⟩
  intro members
  unfold specAnyOfEncode
  unfold encodePattern
  by_cases h : members.length = 0
  · simp [h]
  · simp only [h, if_false]
    cases hc : classifyMembers members with
    | error e => simp [hc, Bind.bind, Except.bind]
    | ok flags =>
        cases he : encodeAnyOfMembers members flags with
        | error e => simp [hc, he, Bind.bind, Except.bind]
        | ok pairs =>
            simp only [hc, he, Bind.bind, Except.bind]
            rw [assembleAnyOf_spec, apply_ite Except.ok]

/-- C6 counterexample: `repeated([5, 2], 'a')` — a range with
`minCount = 5 > maxCount = 2` — is *not* rejected: the constructor returns
the `Repeated` node, contradicting the claim that such counts raise a
construction-time error and never enter the tree. -/
theorem c6_repeated_invalid_counts_counterexample :
    repeatedRange [JSNum.int 5, JSNum.int 2] (.str "a")
      = .ok (.repeated (.int 5) (.int 2) true (.str "a")) := by
  rfl

/-- C6 (amended): the `Repeated` constructors validate only the *shape* of
the range argument — they fail exactly when given a list of length 0 or more
than 2 — and never check `0 ≤ minCount ≤ maxCount`; counts are truncated to
32-bit integers by `|= 0` (so a negative minimum survives, and a missing
maximum becomes `Infinity` and then `0`), and the single-count overload
performs no validation at all, so nodes with `minCount > maxCount` or a
negative `minCount` can enter the tree. -/
theorem c6_repeated_validation_amended :
    (∀ (range : List JSNum) (content : Pattern),
        exceptIsOk (repeatedRange range content)
          = (range.length == 1 || range.length == 2))
    ∧ (∀ (range : List JSNum) (content : Pattern),
        exceptIsOk (repeatedNonGreedy content range)
          = (range.length == 1 || range.length == 2))
    ∧ repeatedRange [JSNum.int (-3)] (.str "a")
        = .ok (.repeated (.int (-3)) (.int 0) true (.str "a"))
    ∧ repeatedNonGreedy (.str "a") [JSNum.int 5, JSNum.int 2]
        = .ok (.repeated (.int 5) (.int 2) false (.str "a"))
    ∧ repeatedCount (JSNum.int (-7)) (.str "a")
        = .repeated (.int (-7)) (.int (-7)) true (.str "a") := by
  exact ⟨fun range content => repeatedRange_isOk range content,
    fun range content => repeatedNonGreedy_isOk range content,
    by rfl, by rfl, by rfl⟩

/-- C7 counterexample: a numeric `sameAs` reference does not encode to the
bare numbered backreference `\N`: `sameAs(1)` encodes to `(?:\1)` — the
backreference wrapped in a non-capturing group. -/
theorem c7_numbered_backreference_counterexample :
    encodePattern (.sameAs (.index 1)) true = .ok "(?:\\1)"
    ∧ ("(?:\\1)" : String) ≠ "\\1" := by
  refine ⟨by rfl, by decide⟩

/-- C7 (amended): `encodePattern` of a `SameAs` node produces exactly the
named backreference syntax `\k<name>` for a name reference, and for an
integer reference `N` produces the numbered backreference *wrapped in a
non-capturing group*, `(?:\N)`. -/
theorem c7_sameAs_encoding_amended :
    (∀ nm : String,
        encodePattern (.sameAs (.gname nm)) true = .ok ("\\k<" ++ nm ++ ">"))
    ∧ (∀ n : Int,
        encodePattern (.sameAs (.index n)) true
          = .ok ("(?:\\" ++ toString n ++ ")")) := by
  exact ⟨fun nm => rfl, fun n => rfl⟩

/-- C8 (confirmed): `matches(primary, conditionMaps)` returns
`[beforeAssertions…, primary, afterAssertions…]`, where each map contributes
its selected before-slots in the fixed order `except` (negative lookahead),
`ifPrecededBy` (positive lookbehind), `ifNotPrecededBy` (negative
lookbehind), `ifExtendsTo` (positive lookahead), and its selected
after-slots in the fixed order `ifFollowedBy` (positive lookahead),
`ifNotFollowedBy` (negative lookahead), `ifExtendsBackTo` (positive
lookbehind), `ifNotExtendsBackTo` (negative lookbehind), appended bucket-wise
in array order over the maps. -/
theorem c8_matches_composition :
    (∀ (pattern : Pattern) (conditionsArray : List MatchesConditions),
        matchesFn pattern conditionsArray =
          conditionsArray.flatMap beforeAssertionsOf ++ [pattern] ++
            conditionsArray.flatMap afterAssertionsOf)
    ∧ matchesFn (.str "P")
        [{ except := some (.str "e"), ifFollowedBy := some (.str "f"),
           ifNotFollowedBy := some (.str "g"), ifPrecededBy := some (.str "h"),
           ifNotPrecededBy := some (.str "i"), ifExtendsTo := some (.str "j"),
           ifExtendsBackTo := some (.str "k"),
           ifNotExtendsBackTo := some (.str "l") }]
        = [.notFollowedBy (.str "e"), .precededBy (.str "h"),
           .notPrecededBy (.str "i"), .followedBy (.str "j"), .str "P",
           .followedBy (.str "f"), .notFollowedBy (.str "g"),
           .precededBy (.str "k"), .notPrecededBy (.str "l")] := by
  refine ⟨?_, by rfl⟩
  intro pattern conditionsArray
  unfold matchesFn
  rw [foldl_processConditions]
  simp

/-- C9 (confirmed): `encodePattern` of a `Capture` node always emits the
capturing group around its content's encoding — with no empty-content
short-circuit, so empty content yields `()` / `(?<name>)` — unlike the
quantifier and lookaround wrappers, which all encode empty content as the
empty string. -/
theorem c9_capture_never_short_circuits :
    (∀ (name : Option String) (content : Pattern),
        encodePattern (.capture name content) true =
          (encodePattern content true).map (fun contentString =>
            match name with
            | some nm =>
                if nm = "" then "(" ++ contentString ++ ")"
                else "(?<" ++ nm ++ ">" ++ contentString ++ ")"
            | none => "(" ++ contentString ++ ")"))
    ∧ encodePattern (.capture none (.str "")) true = .ok "()"
    ∧ encodePattern (.capture (some "g") (.str "")) true = .ok "(?<g>)"
    ∧ (∀ content : Pattern, encodePattern content true = .ok "" →
        encodePattern (.possibly content) true = .ok ""
        ∧ encodePattern (.zeroOrMore true content) true = .ok ""
        ∧ encodePattern (.oneOrMore false content) true = .ok ""
        ∧ encodePattern (.repeated (.int 1) (.int 2) true content) true = .ok ""
        ∧ encodePattern (.precededBy content) true = .ok ""
        ∧ encodePattern (.notPrecededBy content) true = .ok ""
        ∧ encodePattern (.followedBy content) true = .ok ""
        ∧ encodePattern (.notFollowedBy content) true = .ok "") := by
  refine ⟨?_, by rfl, by rfl, ?_⟩
  · intro name content
    cases h : encodePattern content true with
    | error e =>
        cases name <;>
          simp [encodePattern, h, Bind.bind, Except.bind, Except.map]
    | ok s =>
        cases name <;>
          simp [encodePattern, h, Bind.bind, Except.bind, Except.map,
            apply_ite Except.ok]
  · intro content h
    refine ⟨?_, ?_, ?_, ?_, ?_, ?_, ?_, ?_⟩ <;>
      simp [encodePattern, h, Bind.bind, Except.bind]

/-- C9 witness: the general statements instantiated at concrete inputs. -/
theorem c9_capture_never_short_circuits_witness :
    encodePattern (.possibly (.anyOf [])) true = .ok ""
    ∧ encodePattern (.capture (some "g") (.str "x")) true = .ok "(?<g>x)" := by
  constructor
  · exact (c9_capture_never_short_circuits.2.2.2 (.anyOf []) (by rfl)).1
  · rw [c9_capture_never_short_circuits.1 (some "g") (.str "x")]
    rfl

/-- C10 (confirmed): `isPatternOptional` returns `true` for an empty array
pattern and for an `AnyOf` node with zero members — the all-elements /
all-members conditions hold vacuously. -/
theorem c10_vacuous_optionality :
    isPatternOptional (.seq []) = .ok true
    ∧ isPatternOptional (.anyOf []) = .ok true := by
  exact ⟨rfl, rfl⟩

end RegExpComposer
